import Mathlib

/-
Shallow embedding of `get_stocks.py`.

The backing store (sqlite) is modelled as four association lists, one per table,
kept in insertion order.  `INTEGER PRIMARY KEY` ids are assigned as
`max existing id + 1` (sqlite rowid assignment; the script never deletes rows
outside of a full wipe, so this coincides with sqlite's behaviour).
Wall-clock timestamps (`datetime.now()` / `isoformat` round-trips) are modelled
as integers counting seconds; `timedelta(minutes=ttl)` is `ttl * 60` seconds.
Prices (Python floats) are modelled as rationals; no claim depends on rounding.
-/

namespace GetStocks

/-- A row of the `ticker` table: `(id, symbol)`. -/
abbrev TickerRow := Nat × String

/-- A row of the `price` table: `(id, value)`. -/
abbrev PriceRow := Nat × Rat

/-- A row of the `date` table: `(id, timestamp)`. -/
abbrev DateRow := Nat × Int

/-- A row of the `stock_data` table: `(ticker_id, price_id, date_id)`. -/
abbrev StockDataRow := Nat × Nat × Nat

/-- The database state: the four tables created by `initialize_table`,
each in insertion (rowid) order. -/
structure DB where
  ticker : List TickerRow
  price : List PriceRow
  date : List DateRow
  stock_data : List StockDataRow
deriving Repr, DecidableEq

/-- The largest id present in a table (0 when the table is empty). -/
def maxId {α : Type} (l : List (Nat × α)) : Nat :=
  (l.map Prod.fst).foldr max 0

/-- The id sqlite assigns to the next inserted row: `max existing id + 1`. -/
def nextId {α : Type} (l : List (Nat × α)) : Nat :=
  maxId l + 1

/-- A freshly created (or freshly wiped then re-created) database: all four
tables exist and are empty. -/
def emptyDB : DB := ⟨[], [], [], []⟩

/-- `DatabaseManager.wipe_database`: `DROP TABLE IF EXISTS` on all four tables
(followed, on the `__enter__` path, by `initialize_table` re-creating them
empty).  `DROP TABLE IF EXISTS` never fails, so this is a total function. -/
def wipe_database (_db : DB) : DB := emptyDB

/-- Resolve one `stock_data` row through the three JOINs of `get_price`
(`ticker`/`price`/`date` looked up by id) and keep it only when the joined
ticker's symbol matches the WHERE clause. -/
def joinRow (db : DB) (symbol : String) (r : StockDataRow) : Option (Rat × Int) :=
  match db.ticker.find? (fun tk => tk.1 == r.1),
        db.price.find? (fun pr => pr.1 == r.2.1),
        db.date.find? (fun d => d.1 == r.2.2) with
  | some tk, some pr, some d => if tk.2 == symbol then some (pr.2, d.2) else none
  | _, _, _ => none

/-- The result rows of `get_price`'s SELECT, in the order sqlite emits them:
the query has no ORDER BY, and every query plan for this schema scans
`stock_data` in rowid (insertion) order, so the rows come out oldest first. -/
def joinRows (db : DB) (symbol : String) : List (Rat × Int) :=
  db.stock_data.filterMap (joinRow db symbol)

/-- `DatabaseManager.get_price`: run the SELECT, take `fetchone()` (the first
emitted row, i.e. the oldest observation for the symbol), and return its price
when `now - timestamp < timedelta(minutes=ttl_minutes)`, else `None`. -/
def get_price (db : DB) (symbol : String) (ttl_minutes now : Int) : Option Rat :=
  match (joinRows db symbol).head? with
  | some (price, ts) => if now - ts < ttl_minutes * 60 then some price else none
  | none => none

/-- `DatabaseManager.get_price` as a state transformer: the value it returns
together with the database state after the call.  The method only executes the
SELECT (a read) and `fetchone()`, so every branch leaves the state it read. -/
def get_price_run (db : DB) (symbol : String) (ttl_minutes now : Int) :
    Option Rat × DB :=
  match (joinRows db symbol).head? with
  | some (price, ts) =>
      if now - ts < ttl_minutes * 60 then (some price, db) else (none, db)
  | none => (none, db)

/-- The `ticker` table after `INSERT OR IGNORE INTO ticker (symbol)`: unchanged
when a row with this symbol exists, otherwise extended by a fresh row. -/
def tickerAfter (db : DB) (symbol : String) : List TickerRow :=
  if db.ticker.any (fun tk => tk.2 == symbol)
  then db.ticker
  else db.ticker ++ [(nextId db.ticker, symbol)]

/-- The scalar subselect `SELECT id FROM ticker WHERE symbol = ?` evaluated on
the ticker table after the `INSERT OR IGNORE` (a NULL result — impossible here,
since the symbol was just ensured present — is modelled as id 0, an id no row
ever carries). -/
def tidAfter (db : DB) (symbol : String) : Nat :=
  (((tickerAfter db symbol).find? (fun tk => tk.2 == symbol)).map Prod.fst).getD 0

/-- `DatabaseManager.store_price`, statement by statement:
`INSERT OR IGNORE INTO ticker`, `INSERT INTO price`, `INSERT INTO date`, then
the `stock_data` link row built from the three scalar subselects (`id` of the
ticker row with this symbol, and the largest `price` / `date` ids, i.e. the
two `ORDER BY id DESC LIMIT 1` subselects reading the just-inserted rows). -/
def store_price (db : DB) (symbol : String) (price : Rat) (now : Int) : DB :=
  let price1 := db.price ++ [(nextId db.price, price)]
  let date1 := db.date ++ [(nextId db.date, now)]
  { ticker := tickerAfter db symbol, price := price1, date := date1,
    stock_data := db.stock_data ++ [(tidAfter db symbol, maxId price1, maxId date1)] }

/-- One reported line of `get_stock_prices`: either the `Ticker: … Price: …`
line, or the `Error fetching price for …` line printed by the except block. -/
inductive Output where
  | result : String → Rat → Output
  | fetchFailed : String → Output
deriving Repr, DecidableEq

/-- The symbol an output line reports on. -/
def Output.sym : Output → String
  | .result s _ => s
  | .fetchFailed s => s

/-- The environment a run executes against: the external price-fetch
collaborator (`stockstir.tools.get_single_price`, which either returns a price
or raises), and oracles saying for which symbols the storage layer raises
inside `store_price` resp. inside `get_price`. -/
structure RunCfg where
  fetch : String → Except Unit Rat
  storeFails : String → Bool
  getFails : String → Bool

/-- Everything observable about a run of the `get_stock_prices` loop: the
printed lines in order, the fetch calls made in order, the final database
state, and whether an uncaught exception escaped the loop. -/
structure RunResult where
  outputs : List Output
  fetchLog : List String
  db : DB
  aborted : Bool
deriving Repr, DecidableEq

/-- The loop of `get_stock_prices` over the remaining tickers.  Per iteration:
`db.get_price` runs outside any try block, so a storage failure there
propagates (the `with` block only closes the connection) and ends the run.
On a miss, the try block covers both the fetch call and `db.store_price`;
an exception from either is caught by `except Exception`, which prints the
error line and `continue`s.  A failing `store_price` is modelled as raising
before committing anything, leaving the database unchanged.  The wall clock
is modelled as a single instant `now` for the run; no claim here depends on
the clock advancing between iterations. -/
def run (cfg : RunCfg) (ttl now : Int) (db : DB) : List String → RunResult
  | [] => ⟨[], [], db, false⟩
  | t :: rest =>
    if cfg.getFails t then
      ⟨[], [], db, true⟩
    else
      match get_price db t ttl now with
      | some p =>
          let r := run cfg ttl now db rest
          ⟨.result t p :: r.outputs, r.fetchLog, r.db, r.aborted⟩
      | none =>
          match cfg.fetch t with
          | .error _ =>
              let r := run cfg ttl now db rest
              ⟨.fetchFailed t :: r.outputs, t :: r.fetchLog, r.db, r.aborted⟩
          | .ok p =>
              if cfg.storeFails t then
                let r := run cfg ttl now db rest
                ⟨.fetchFailed t :: r.outputs, t :: r.fetchLog, r.db, r.aborted⟩
              else
                let r := run cfg ttl now (store_price db t p now) rest
                ⟨.result t p :: r.outputs, t :: r.fetchLog, r.db, r.aborted⟩

/-- Well-formedness of a database state, as guaranteed by the schema and by
reachability through `store_price` from an empty store: ticker symbols are
unique (the UNIQUE constraint), ticker ids are unique (PRIMARY KEY), and every
`stock_data` row references existing ticker/price/date ids. -/
structure WF (db : DB) : Prop where
  symbolsNodup : (db.ticker.map Prod.snd).Nodup
  tickerIdsNodup : (db.ticker.map Prod.fst).Nodup
  sdTicker : ∀ r ∈ db.stock_data, r.1 ∈ db.ticker.map Prod.fst
  sdPrice : ∀ r ∈ db.stock_data, r.2.1 ∈ db.price.map Prod.fst
  sdDate : ∀ r ∈ db.stock_data, r.2.2 ∈ db.date.map Prod.fst

/-- The empty store is well-formed. -/
theorem WF_emptyDB : WF emptyDB :=
  ⟨List.nodup_nil, List.nodup_nil, by simp [emptyDB], by simp [emptyDB],
   by simp [emptyDB]⟩

/-- A store holding two observations for "AAPL": price 100 captured at second
0, then price 200 captured at second 1200 (minute 20). -/
def dbStale : DB := store_price (store_price emptyDB "AAPL" 100 0) "AAPL" 200 1200

/-- A store holding two observations for "AAPL": price 100 captured at second
0, then price 200 captured at second 60 (one minute later). -/
def dbTwoPrices : DB := store_price (store_price emptyDB "AAPL" 100 0) "AAPL" 200 60

/-- Every id present in a table is bounded by `maxId`. -/
theorem mem_maxId_le {α : Type} {l : List (Nat × α)} {x : Nat × α} (hx : x ∈ l) :
    x.1 ≤ maxId l := by
  induction l with
  | nil => cases hx
  | cons a t ih =>
    rcases List.mem_cons.1 hx with rfl | hx
    · exact le_max_left _ _
    · exact (ih hx).trans (le_max_right _ _)

/-- Folding `max` over values all bounded by the seed returns the seed. -/
theorem foldr_max_eq {l : List Nat} {b : Nat} (h : ∀ y ∈ l, y ≤ b) :
    l.foldr max b = b := by
  induction l with
  | nil => rfl
  | cons a t ih =>
    have ha : a ≤ b := h a (List.mem_cons_self a t)
    have ht : t.foldr max b = b := ih fun y hy => h y (List.mem_cons_of_mem a hy)
    simp [List.foldr_cons, ht, ha, max_eq_right]

/-- Appending a row with the fresh id makes that id the new maximum. -/
theorem maxId_snoc_nextId {α : Type} (l : List (Nat × α)) (a : α) :
    maxId (l ++ [(nextId l, a)]) = nextId l := by
  unfold maxId
  rw [List.map_append, List.foldr_append]
  simp only [List.map_cons, List.map_nil, List.foldr_cons, List.foldr_nil,
    Nat.max_zero]
  refine foldr_max_eq fun y hy => ?_
  obtain ⟨x, hx, rfl⟩ := List.mem_map.1 hy
  exact le_trans (mem_maxId_le hx) (Nat.le_succ _)

/-- When some element of the left list satisfies the predicate, `find?` over an
append ignores the right list. -/
theorem find?_append_of_exists {α : Type} {p : α → Bool} {l : List α}
    (l' : List α) (h : ∃ x ∈ l, p x) : (l ++ l').find? p = l.find? p := by
  obtain ⟨b, hb⟩ := Option.isSome_iff_exists.1 (List.find?_isSome.2 h)
  rw [List.find?_append, hb]
  rfl

/-- Looking up the freshly appended id finds exactly the appended row. -/
theorem find?_snoc_fresh {α : Type} (l : List (Nat × α)) (a : α) :
    (l ++ [(nextId l, a)]).find? (fun y => y.1 == nextId l)
      = some (nextId l, a) := by
  have hnone : l.find? (fun y => y.1 == nextId l) = none := by
    rw [List.find?_eq_none]
    intro x hx
    simp only [beq_iff_eq]
    exact Nat.ne_of_lt (Nat.lt_succ_of_le (mem_maxId_le hx))
  rw [List.find?_append, hnone]
  simp

/-- When the ids of a table are distinct, looking a member row up by its id
finds that row. -/
theorem find?_id_of_nodup {α : Type} {l : List (Nat × α)}
    (h : (l.map Prod.fst).Nodup) {x : Nat × α} (hx : x ∈ l) :
    l.find? (fun y => y.1 == x.1) = some x := by
  induction l with
  | nil => cases hx
  | cons a t ih =>
    rcases List.mem_cons.1 hx with rfl | hxt
    · simp [List.find?_cons_of_pos]
    · have h' : (a.1 :: t.map Prod.fst).Nodup := by simpa using h
      have hnd := List.nodup_cons.1 h'
      have ha : (a.1 == x.1) = false := by
        simp only [beq_eq_false_iff_ne, ne_eq]
        intro he
        exact hnd.1 (he ▸ List.mem_map.2 ⟨x, hxt, rfl⟩)
      rw [List.find?_cons_of_neg _ (by simp [ha]), ih hnd.2 hxt]

theorem store_price_ticker (db : DB) (s : String) (p : Rat) (t : Int) :
    (store_price db s p t).ticker = tickerAfter db s := rfl

theorem store_price_price (db : DB) (s : String) (p : Rat) (t : Int) :
    (store_price db s p t).price = db.price ++ [(nextId db.price, p)] := rfl

theorem store_price_date (db : DB) (s : String) (p : Rat) (t : Int) :
    (store_price db s p t).date = db.date ++ [(nextId db.date, t)] := rfl

theorem store_price_stock_data (db : DB) (s : String) (p : Rat) (t : Int) :
    (store_price db s p t).stock_data =
      db.stock_data ++ [(tidAfter db s, nextId db.price, nextId db.date)] := by
  simp [store_price, maxId_snoc_nextId]

/-- The `SELECT id FROM ticker WHERE symbol = ?` subselect after the
`INSERT OR IGNORE` finds a row, and that row carries the requested symbol. -/
theorem tickerAfter_find (db : DB) (s : String) :
    ∃ R, (tickerAfter db s).find? (fun tk => tk.2 == s) = some R ∧ R.2 = s := by
  by_cases h : db.ticker.any (fun tk => tk.2 == s) = true
  · obtain ⟨x, hx, hpx⟩ := List.any_eq_true.1 h
    have hs : (db.ticker.find? (fun tk => tk.2 == s)).isSome :=
      List.find?_isSome.2 ⟨x, hx, hpx⟩
    obtain ⟨R, hR⟩ := Option.isSome_iff_exists.1 hs
    refine ⟨R, ?_, ?_⟩
    · simpa [tickerAfter, h] using hR
    · have := List.find?_some hR
      simpa using this
  · refine ⟨(nextId db.ticker, s), ?_, rfl⟩
    have hnone : db.ticker.find? (fun tk => tk.2 == s) = none := by
      rw [List.find?_eq_none]
      intro x hx
      have := (List.any_eq_true.not.1 h)
      push_neg at this
      have hxs := this x hx
      simpa using hxs
    simp [tickerAfter, h, List.find?_append, hnone]

/-- The ids of the ticker table stay distinct across `INSERT OR IGNORE`. -/
theorem tickerAfter_idsNodup {db : DB} (hwf : WF db) (s : String) :
    ((tickerAfter db s).map Prod.fst).Nodup := by
  unfold tickerAfter
  by_cases h : db.ticker.any (fun tk => tk.2 == s) = true
  · simpa [h] using hwf.tickerIdsNodup
  · simp only [h, if_neg, List.map_append, List.map_cons, List.map_nil,
      Bool.false_eq_true, not_false_iff]
    rw [List.nodup_append]
    refine ⟨hwf.tickerIdsNodup, List.nodup_singleton _, ?_⟩
    intro y hy
    simp only [List.mem_singleton]
    obtain ⟨x, hx, rfl⟩ := List.mem_map.1 hy
    exact fun he => absurd he (Nat.ne_of_lt (Nat.lt_succ_of_le (mem_maxId_le hx)))

/-- The symbols of the ticker table stay distinct across `INSERT OR IGNORE`
(the UNIQUE constraint). -/
theorem tickerAfter_symbolsNodup {db : DB} (hwf : WF db) (s : String) :
    ((tickerAfter db s).map Prod.snd).Nodup := by
  unfold tickerAfter
  by_cases h : db.ticker.any (fun tk => tk.2 == s) = true
  · simpa [h] using hwf.symbolsNodup
  · simp only [h, if_neg, List.map_append, List.map_cons, List.map_nil,
      Bool.false_eq_true, not_false_iff]
    rw [List.nodup_append]
    refine ⟨hwf.symbolsNodup, List.nodup_singleton _, ?_⟩
    intro y hy
    simp only [List.mem_singleton]
    obtain ⟨x, hx, rfl⟩ := List.mem_map.1 hy
    intro he
    have := (List.any_eq_true.not.1 h)
    push_neg at this
    have hxs := this x hx
    simp [he] at hxs

/-- Resolving an already-present `stock_data` row is unaffected by the inserts
of a `store_price` call: its three id lookups all hit rows that already
existed. -/
theorem joinRow_store_mem {db : DB} (hwf : WF db) (s s' : String) (p : Rat)
    (t : Int) {r : StockDataRow} (hr : r ∈ db.stock_data) :
    joinRow (store_price db s p t) s' r = joinRow db s' r := by
  have hT : (store_price db s p t).ticker.find? (fun tk => tk.1 == r.1)
      = db.ticker.find? (fun tk => tk.1 == r.1) := by
    rw [store_price_ticker]
    unfold tickerAfter
    by_cases h : db.ticker.any (fun tk => tk.2 == s) = true
    · simp [h]
    · simp only [h, if_neg, Bool.false_eq_true, not_false_iff]
      obtain ⟨x, hx, hfst⟩ := List.mem_map.1 (hwf.sdTicker r hr)
      exact find?_append_of_exists _ ⟨x, hx, by simp [hfst]⟩
  have hP : (store_price db s p t).price.find? (fun pr => pr.1 == r.2.1)
      = db.price.find? (fun pr => pr.1 == r.2.1) := by
    rw [store_price_price]
    obtain ⟨x, hx, hfst⟩ := List.mem_map.1 (hwf.sdPrice r hr)
    exact find?_append_of_exists _ ⟨x, hx, by simp [hfst]⟩
  have hD : (store_price db s p t).date.find? (fun d => d.1 == r.2.2)
      = db.date.find? (fun d => d.1 == r.2.2) := by
    rw [store_price_date]
    obtain ⟨x, hx, hfst⟩ := List.mem_map.1 (hwf.sdDate r hr)
    exact find?_append_of_exists _ ⟨x, hx, by simp [hfst]⟩
  simp only [joinRow, hT, hP, hD]

/-- Resolving the link row just appended by `store_price` yields the new
observation, for the stored symbol and no other. -/
theorem joinRow_store_new {db : DB} (hwf : WF db) (s s' : String) (p : Rat)
    (t : Int) :
    joinRow (store_price db s p t) s'
        (tidAfter db s, nextId db.price, nextId db.date)
      = if s' = s then some (p, t) else none := by
  obtain ⟨R, hfind, hR2⟩ := tickerAfter_find db s
  have hmem : R ∈ tickerAfter db s := List.mem_of_find?_eq_some hfind
  have htid : tidAfter db s = R.1 := by simp [tidAfter, hfind]
  have hTfind : (store_price db s p t).ticker.find?
      (fun tk => tk.1 == tidAfter db s) = some R := by
    rw [store_price_ticker, htid]
    exact find?_id_of_nodup (tickerAfter_idsNodup hwf s) hmem
  have hPfind : (store_price db s p t).price.find?
      (fun pr => pr.1 == nextId db.price) = some (nextId db.price, p) := by
    rw [store_price_price]
    exact find?_snoc_fresh _ _
  have hDfind : (store_price db s p t).date.find?
      (fun d => d.1 == nextId db.date) = some (nextId db.date, t) := by
    rw [store_price_date]
    exact find?_snoc_fresh _ _
  simp only [joinRow, hTfind, hPfind, hDfind, hR2]
  by_cases h : s' = s
  · simp [h]
  · have hne : (s == s') = false := by
      simp only [beq_eq_false_iff_ne, ne_eq]
      exact fun he => h he.symm
    simp [h, hne]

/-- Pointwise equal resolvers yield the same filtered rows. -/
theorem filterMap_ext_mem {α β : Type} {f g : α → Option β} {l : List α}
    (h : ∀ a ∈ l, f a = g a) : l.filterMap f = l.filterMap g := by
  induction l with
  | nil => rfl
  | cons a t ih =>
    rw [List.filterMap_cons, List.filterMap_cons, h a (List.mem_cons_self a t),
      ih fun x hx => h x (List.mem_cons_of_mem a hx)]

/-- Effect of one `store_price` call on the rows `get_price`'s SELECT sees:
the rows for every symbol are preserved in order, and the new observation is
appended at the end of the stored symbol's rows. -/
theorem joinRows_store {db : DB} (hwf : WF db) (s s' : String) (p : Rat)
    (t : Int) :
    joinRows (store_price db s p t) s'
      = joinRows db s' ++ (if s' = s then [(p, t)] else []) := by
  unfold joinRows
  rw [store_price_stock_data, List.filterMap_append]
  congr 1
  · exact filterMap_ext_mem fun r hr => joinRow_store_mem hwf s s' p t hr
  · rw [List.filterMap_cons, joinRow_store_new hwf s s' p t]
    by_cases h : s' = s <;> simp [h]

/-- A symbol absent from the ticker table has no observation rows: every
`stock_data` row resolves to some ticker row's symbol. -/
theorem joinRows_eq_nil_of_not_mem {db : DB} {s : String}
    (h : s ∉ db.ticker.map Prod.snd) : joinRows db s = [] := by
  unfold joinRows
  rw [List.filterMap_eq_nil_iff]
  intro r hr
  unfold joinRow
  cases h1 : db.ticker.find? (fun tk => tk.1 == r.1) with
  | none => rfl
  | some tk =>
    cases h2 : db.price.find? (fun pr => pr.1 == r.2.1) with
    | none => rfl
    | some pr =>
      cases h3 : db.date.find? (fun d => d.1 == r.2.2) with
      | none => rfl
      | some d =>
        have hne : tk.2 ≠ s := fun he =>
          h (List.mem_map.2 ⟨tk, List.mem_of_find?_eq_some h1, he⟩)
        simp [hne]

/-- Well-formedness is preserved by `store_price`. -/
theorem WF_store {db : DB} (hwf : WF db) (s : String) (p : Rat) (t : Int) :
    WF (store_price db s p t) := by
  obtain ⟨R, hfind, hR2⟩ := tickerAfter_find db s
  have hmem : R ∈ tickerAfter db s := List.mem_of_find?_eq_some hfind
  have htid : tidAfter db s = R.1 := by simp [tidAfter, hfind]
  refine ⟨?_, ?_, ?_, ?_, ?_⟩
  · rw [store_price_ticker]
    exact tickerAfter_symbolsNodup hwf s
  · rw [store_price_ticker]
    exact tickerAfter_idsNodup hwf s
  · rw [store_price_stock_data, store_price_ticker]
    intro r hr
    rcases List.mem_append.1 hr with hold | hnew
    · have hid := hwf.sdTicker r hold
      unfold tickerAfter
      by_cases h : db.ticker.any (fun tk => tk.2 == s) = true
      · simpa [h] using hid
      · simp only [h, if_neg, List.map_append, Bool.false_eq_true,
          not_false_iff]
        exact List.mem_append_left _ hid
    · rw [List.mem_singleton.1 hnew, htid]
      exact List.mem_map.2 ⟨R, hmem, rfl⟩
  · rw [store_price_stock_data, store_price_price]
    intro r hr
    rw [List.map_append]
    rcases List.mem_append.1 hr with hold | hnew
    · exact List.mem_append_left _ (hwf.sdPrice r hold)
    · rw [List.mem_singleton.1 hnew]
      simp
  · rw [store_price_stock_data, store_price_date]
    intro r hr
    rw [List.map_append]
    rcases List.mem_append.1 hr with hold | hnew
    · exact List.mem_append_left _ (hwf.sdDate r hold)
    · rw [List.mem_singleton.1 hnew]
      simp

/-- C1: refuted by the code — `get_price`'s SELECT has no ORDER BY and
`fetchone()` takes the first emitted row, so the TTL check and return value
are based on the OLDEST stored observation for the symbol, not the most
recently inserted one.  With observations (100 at second 0) then (200 at
second 60), a lookup at second 120 with a 5-minute TTL returns the old price
100 instead of the latest price 200; and with observations (100 at second 0)
then (200 at second 1200), a lookup at second 1260 returns absent although
the most recent observation is only 60 seconds old — well within the TTL.
The spec (and the script's own caching purpose) is the intent; the missing
ORDER BY is the slip. -/
theorem get_price_reads_oldest_row :
    get_price dbTwoPrices "AAPL" 5 120 = some 100 ∧
    (joinRows dbTwoPrices "AAPL").getLast? = some (200, 60) ∧
    get_price dbStale "AAPL" 5 1260 = none ∧
    (joinRows dbStale "AAPL").getLast? = some (200, 1200) ∧
    ((1260 : Int) - 1200 < 5 * 60) := by decide

/-- C3: for every store, symbol and TTL, `get_price` returns absent when the
SELECT finds no observation row for the symbol; and when it finds one, it
returns that observation's price exactly when `now - timestamp` is strictly
below `ttl_minutes` minutes, absent otherwise. -/
theorem get_price_ttl_semantics (db : DB) (s : String) (ttl now : Int) :
    (joinRows db s = [] → get_price db s ttl now = none) ∧
    (∀ p ts rest, joinRows db s = (p, ts) :: rest →
      get_price db s ttl now = if now - ts < ttl * 60 then some p else none) := by
  constructor
  · intro h
    simp [get_price, h]
  · intro p ts rest h
    simp [get_price, h]

/-- Witness for C3 at a concrete input: on the empty store, `get("ZZZZ", 5)`
returns absent. -/
theorem get_price_ttl_semantics_witness :
    get_price emptyDB "ZZZZ" 5 0 = none :=
  (get_price_ttl_semantics emptyDB "ZZZZ" 5 0).1 rfl

/-- C6: `get_price` never modifies the stored state: the database after the
call is the one before it, every symbol's observation rows are untouched, and
in particular a stale observation is not evicted — it is merely not
returned. -/
theorem get_price_no_mutation (db : DB) (s : String) (ttl now : Int) :
    (get_price_run db s ttl now).2 = db ∧
    (get_price_run db s ttl now).1 = get_price db s ttl now ∧
    (∀ s', joinRows (get_price_run db s ttl now).2 s' = joinRows db s') ∧
    (∀ p ts rest, joinRows db s = (p, ts) :: rest → ¬(now - ts < ttl * 60) →
      (get_price_run db s ttl now).1 = none ∧
      joinRows (get_price_run db s ttl now).2 s = (p, ts) :: rest) := by
  have h2 : (get_price_run db s ttl now).2 = db := by
    unfold get_price_run
    cases h : (joinRows db s).head? with
    | none => rfl
    | some pr =>
      obtain ⟨p, ts⟩ := pr
      dsimp only
      split <;> rfl
  have h1 : (get_price_run db s ttl now).1 = get_price db s ttl now := by
    unfold get_price_run get_price
    cases h : (joinRows db s).head? with
    | none => rfl
    | some pr =>
      obtain ⟨p, ts⟩ := pr
      dsimp only
      split <;> rfl
  refine ⟨h2, h1, fun s' => by rw [h2], ?_⟩
  intro p ts rest h hstale
  refine ⟨?_, by rw [h2, h]⟩
  rw [h1]
  simp [get_price, h, hstale]

/-- Witness for C6 at a concrete input: with both observations for "AAPL"
stale, the call returns absent and the stale rows are still all there. -/
theorem get_price_no_mutation_witness :
    (get_price_run dbStale "AAPL" 5 100000).1 = none ∧
    joinRows (get_price_run dbStale "AAPL" 5 100000).2 "AAPL"
      = (100, 0) :: [(200, 1200)] :=
  (get_price_no_mutation dbStale "AAPL" 5 100000).2.2.2 100 0 [(200, 1200)]
    (by decide) (by decide)

/-- C9: `wipe_database` (the reset path) destroys all stored data: afterwards
`get_price` returns absent for every symbol and every TTL, even for symbols
whose prior observation was still fresh.  The drop is no-op-safe: it is a
total operation, and on an already-empty store it does nothing. -/
theorem wipe_database_resets (db : DB) (s : String) (ttl now : Int) :
    get_price (wipe_database db) s ttl now = none ∧
    wipe_database emptyDB = emptyDB ∧
    wipe_database (wipe_database db) = wipe_database db :=
  ⟨rfl, rfl, rfl⟩

/-- C10: put/get round trip — storing a price for a symbol with no prior
observation rows and reading it back before the TTL elapses returns exactly
the stored price. -/
theorem put_get_roundtrip (db : DB) (hwf : WF db) (s : String) (p : Rat)
    (t ttl now : Int) (hfresh : joinRows db s = [])
    (_httl : 0 < ttl) (hage : now - t < ttl * 60) :
    get_price (store_price db s p t) s ttl now = some p := by
  have h := joinRows_store hwf s s p t
  rw [if_pos rfl, hfresh] at h
  simp [get_price, h, hage]

/-- Witness for C10 at a concrete input: store 100 for "AAPL" at second 0 on
the empty store; reading it back at second 60 with a 5-minute TTL yields
100. -/
theorem put_get_roundtrip_witness :
    get_price (store_price emptyDB "AAPL" 100 0) "AAPL" 5 60 = some 100 :=
  put_get_roundtrip emptyDB WF_emptyDB "AAPL" 100 0 5 60 rfl (by decide)
    (by decide)

/-- C5: storing twice for the same (previously unseen) symbol creates exactly
one ticker row for it — the duplicate `INSERT OR IGNORE` is a no-op — while
adding two price rows, two link rows, and two distinct observations, one per
call. -/
theorem put_twice_one_symbol_row (db : DB) (hwf : WF db) (s : String)
    (p₁ p₂ : Rat) (t₁ t₂ : Int) (habs : s ∉ db.ticker.map Prod.snd) :
    ((store_price (store_price db s p₁ t₁) s p₂ t₂).ticker.filter
        (fun tk => tk.2 == s)).length = 1 ∧
    (store_price (store_price db s p₁ t₁) s p₂ t₂).price.length
      = db.price.length + 2 ∧
    (store_price (store_price db s p₁ t₁) s p₂ t₂).stock_data.length
      = db.stock_data.length + 2 ∧
    joinRows (store_price (store_price db s p₁ t₁) s p₂ t₂) s
      = [(p₁, t₁), (p₂, t₂)] := by
  have hany1 : db.ticker.any (fun tk => tk.2 == s) = false := by
    rw [List.any_eq_false]
    intro x hx
    simp only [beq_iff_eq]
    exact fun he => habs (List.mem_map.2 ⟨x, hx, he⟩)
  have hdb1t : (store_price db s p₁ t₁).ticker
      = db.ticker ++ [(nextId db.ticker, s)] := by
    rw [store_price_ticker]
    simp [tickerAfter, hany1]
  have hany2 : (store_price db s p₁ t₁).ticker.any (fun tk => tk.2 == s)
      = true := by
    rw [hdb1t, List.any_eq_true]
    exact ⟨(nextId db.ticker, s), by simp, by simp⟩
  have hdb2t : (store_price (store_price db s p₁ t₁) s p₂ t₂).ticker
      = (store_price db s p₁ t₁).ticker := by
    rw [store_price_ticker]
    simp [tickerAfter, hany2]
  refine ⟨?_, ?_, ?_, ?_⟩
  · rw [hdb2t, hdb1t, List.filter_append]
    have hleft : db.ticker.filter (fun tk => tk.2 == s) = [] := by
      rw [List.filter_eq_nil_iff]
      intro x hx
      simp only [beq_iff_eq]
      exact fun he => habs (List.mem_map.2 ⟨x, hx, he⟩)
    simp [hleft]
  · rw [store_price_price, store_price_price]
    simp
  · rw [store_price_stock_data, store_price_stock_data]
    simp
  · rw [joinRows_store (WF_store hwf s p₁ t₁) s s p₂ t₂, if_pos rfl,
      joinRows_store hwf s s p₁ t₁, if_pos rfl,
      joinRows_eq_nil_of_not_mem habs]
    rfl

/-- Witness for C5 at a concrete input: two stores for "AAPL" on the empty
store yield one ticker row, two price rows, two link rows, and the two
observations in order. -/
theorem put_twice_one_symbol_row_witness :
    ((store_price (store_price emptyDB "AAPL" 100 0) "AAPL" 200 60).ticker.filter
        (fun tk => tk.2 == "AAPL")).length = 1 ∧
    (store_price (store_price emptyDB "AAPL" 100 0) "AAPL" 200 60).price.length
      = emptyDB.price.length + 2 ∧
    (store_price (store_price emptyDB "AAPL" 100 0) "AAPL" 200 60).stock_data.length
      = emptyDB.stock_data.length + 2 ∧
    joinRows (store_price (store_price emptyDB "AAPL" 100 0) "AAPL" 200 60) "AAPL"
      = [(100, 0), (200, 60)] :=
  put_twice_one_symbol_row emptyDB WF_emptyDB "AAPL" 100 200 0 60 (by simp [emptyDB])

/-- An environment where fetching "BAD" raises and every other fetch returns
10; the storage layer never fails. -/
def cfgBadFetch : RunCfg :=
  ⟨fun s => if s == "BAD" then .error () else .ok 10,
   fun _ => false, fun _ => false⟩

/-- An environment where every fetch returns 10 and `store_price` raises a
storage error for "BAD". -/
def cfgBadStore : RunCfg :=
  ⟨fun _ => .ok 10, fun s => s == "BAD", fun _ => false⟩

/-- An environment where every fetch returns 10 and `get_price` raises a
storage error for "BAD". -/
def cfgBadGet : RunCfg :=
  ⟨fun _ => .ok 10, fun _ => false, fun s => s == "BAD"⟩

/-- C4: a fetch failure is fully isolated per symbol.  When the collaborator
raises for a cache-missed symbol, the loop prints the error line for that
symbol only (no price result for it) and then behaves on the remaining
symbols exactly as a run that had started at them, with the store
untouched. -/
theorem fetch_failure_isolated (cfg : RunCfg) (ttl now : Int) (db : DB)
    (bad : String) (rest : List String)
    (hget : cfg.getFails bad = false)
    (hmiss : get_price db bad ttl now = none)
    (hfail : cfg.fetch bad = .error ()) :
    run cfg ttl now db (bad :: rest) =
      ⟨.fetchFailed bad :: (run cfg ttl now db rest).outputs,
       bad :: (run cfg ttl now db rest).fetchLog,
       (run cfg ttl now db rest).db,
       (run cfg ttl now db rest).aborted⟩ := by
  simp [run, hget, hmiss, hfail]

/-- Witness for C4 at a concrete input: with a failing fetch for "BAD" on the
empty store, the run over ["BAD", "MSFT"] reports the error for "BAD" and
continues into the rest of the sequence unchanged. -/
theorem fetch_failure_isolated_witness :
    run cfgBadFetch 5 0 emptyDB ("BAD" :: ["MSFT"]) =
      ⟨.fetchFailed "BAD" :: (run cfgBadFetch 5 0 emptyDB ["MSFT"]).outputs,
       "BAD" :: (run cfgBadFetch 5 0 emptyDB ["MSFT"]).fetchLog,
       (run cfgBadFetch 5 0 emptyDB ["MSFT"]).db,
       (run cfgBadFetch 5 0 emptyDB ["MSFT"]).aborted⟩ :=
  fetch_failure_isolated cfgBadFetch 5 0 emptyDB "BAD" ["MSFT"] rfl rfl rfl

/-- C7: the loop processes symbols one at a time in input order, and the
reported lines match the input order exactly — one line per symbol, duplicates
processed independently, never reordered (assuming no storage failure aborts
the run). -/
theorem run_preserves_order (cfg : RunCfg) (ttl now : Int) (db : DB)
    (tickers : List String)
    (hget : ∀ t ∈ tickers, cfg.getFails t = false) :
    (run cfg ttl now db tickers).outputs.map Output.sym = tickers := by
  induction tickers generalizing db with
  | nil => simp [run]
  | cons t rest ih =>
    have hgf : cfg.getFails t = false := hget t (List.mem_cons_self t rest)
    have hrest : ∀ x ∈ rest, cfg.getFails x = false :=
      fun x hx => hget x (List.mem_cons_of_mem t hx)
    simp only [run, hgf, Bool.false_eq_true, if_neg, not_false_iff]
    cases hgp : get_price db t ttl now with
    | some p => simp [Output.sym, ih db hrest]
    | none =>
      cases hf : cfg.fetch t with
      | error e => simp [Output.sym, ih db hrest]
      | ok p =>
        by_cases hsf : cfg.storeFails t = true <;>
          simp [hsf, Output.sym, ih _ hrest]

/-- Witness for C7 at a concrete input: the run over ["MSFT", "AAPL"] reports
on "MSFT" then "AAPL", in input order. -/
theorem run_preserves_order_witness :
    (run cfgBadFetch 5 0 emptyDB ["MSFT", "AAPL"]).outputs.map Output.sym
      = ["MSFT", "AAPL"] :=
  run_preserves_order cfgBadFetch 5 0 emptyDB ["MSFT", "AAPL"]
    (fun _ _ => rfl)

/-- C8: on a cache hit the loop reports the cached price and does nothing
else: no fetch call is made, no `store_price` happens, and the remaining
symbols are processed against the unchanged store. -/
theorem cache_hit_no_fetch_no_put (cfg : RunCfg) (ttl now : Int) (db : DB)
    (t : String) (rest : List String) (p : Rat)
    (hget : cfg.getFails t = false)
    (hhit : get_price db t ttl now = some p) :
    run cfg ttl now db (t :: rest) =
      ⟨.result t p :: (run cfg ttl now db rest).outputs,
       (run cfg ttl now db rest).fetchLog,
       (run cfg ttl now db rest).db,
       (run cfg ttl now db rest).aborted⟩ := by
  simp [run, hget, hhit]

/-- Witness for C8 at a concrete input: with "AAPL" stored one minute ago and
a 5-minute TTL, the run over ["AAPL"] reports the cached 100 and its fetch
log is empty. -/
theorem cache_hit_no_fetch_no_put_witness :
    run cfgBadFetch 5 60 (store_price emptyDB "AAPL" 100 0) ("AAPL" :: []) =
      ⟨.result "AAPL" 100
          :: (run cfgBadFetch 5 60 (store_price emptyDB "AAPL" 100 0) []).outputs,
       (run cfgBadFetch 5 60 (store_price emptyDB "AAPL" 100 0) []).fetchLog,
       (run cfgBadFetch 5 60 (store_price emptyDB "AAPL" 100 0) []).db,
       (run cfgBadFetch 5 60 (store_price emptyDB "AAPL" 100 0) []).aborted⟩ :=
  cache_hit_no_fetch_no_put cfgBadFetch 5 60 (store_price emptyDB "AAPL" 100 0)
    "AAPL" [] 100 rfl (by decide)

/-- C2, counterexample: the claim says a storage failure during put
propagates and terminates processing of all subsequent symbols.  It does not:
`db.store_price` sits inside the same try block as the fetch, so its
exception is caught by `except Exception`, the error line is printed, and the
run continues — here "MSFT", which comes after the failing "BAD", is still
fetched and reported, and the run does not abort. -/
theorem store_failure_not_fatal :
    (run cfgBadStore 5 0 emptyDB ["BAD", "MSFT"]).aborted = false ∧
    Output.result "MSFT" 10 ∈ (run cfgBadStore 5 0 emptyDB ["BAD", "MSFT"]).outputs ∧
    (run cfgBadStore 5 0 emptyDB ["BAD", "MSFT"]).outputs
      = [.fetchFailed "BAD", .result "MSFT" 10] := by decide

/-- C2 as amended: a storage failure raised inside `get_price` is not caught
anywhere and terminates the whole run — no symbol after it is processed and
nothing more is reported — whereas a storage failure raised inside
`store_price` is caught by the per-symbol except block (like a fetch
failure): the error line is printed for that symbol only and processing
continues with the next symbol. -/
theorem storage_failure_semantics (cfg : RunCfg) (ttl now : Int) (db : DB)
    (t : String) (rest : List String) :
    (cfg.getFails t = true →
      run cfg ttl now db (t :: rest) = ⟨[], [], db, true⟩) ∧
    (∀ p, cfg.getFails t = false → get_price db t ttl now = none →
      cfg.fetch t = .ok p → cfg.storeFails t = true →
      run cfg ttl now db (t :: rest) =
        ⟨.fetchFailed t :: (run cfg ttl now db rest).outputs,
         t :: (run cfg ttl now db rest).fetchLog,
         (run cfg ttl now db rest).db,
         (run cfg ttl now db rest).aborted⟩) := by
  constructor
  · intro h
    simp [run, h]
  · intro p hget hmiss hok hsf
    simp [run, hget, hmiss, hok, hsf]

/-- Witness for the amended C2 at concrete inputs: a get-side storage failure
on "BAD" aborts the run over ["BAD", "MSFT"] immediately with no output, and
a store-side storage failure on "BAD" is reported and skipped. -/
theorem storage_failure_semantics_witness :
    run cfgBadGet 5 0 emptyDB ("BAD" :: ["MSFT"]) = ⟨[], [], emptyDB, true⟩ ∧
    run cfgBadStore 5 0 emptyDB ("BAD" :: ["MSFT"]) =
      ⟨.fetchFailed "BAD" :: (run cfgBadStore 5 0 emptyDB ["MSFT"]).outputs,
       "BAD" :: (run cfgBadStore 5 0 emptyDB ["MSFT"]).fetchLog,
       (run cfgBadStore 5 0 emptyDB ["MSFT"]).db,
       (run cfgBadStore 5 0 emptyDB ["MSFT"]).aborted⟩ :=
  ⟨(storage_failure_semantics cfgBadGet 5 0 emptyDB "BAD" ["MSFT"]).1
      (by decide),
   (storage_failure_semantics cfgBadStore 5 0 emptyDB "BAD" ["MSFT"]).2 10
      rfl rfl rfl (by decide)⟩

end GetStocks
